import Mathlib

/-!
Verification development for the awesome-list catalog core of the
nextjs-boilerplate-vscodehub repository.

The development shallowly embeds, from the TypeScript source:
- the data model (`AwesomeItem`, `AwesomeCategory`, `AwesomeCatalog`)
  from `src/types`;
- `slugify` from `src/lib/utils.ts`;
- the markdown tokenizer `simpleParseMarkdown`, `extractText`,
  `parseListItem`, `parseAwesomeList`, `searchItems` and `matchesSearch`
  from `src/lib/parser.ts` (the tree/list/v2 parser);
- `flattenItemsFromTree` and `normalizeCatalog` from `src/lib/kv.ts`;
- the sync handler `POST` of `src/app/api/admin/sync/route.ts`, as a
  trace-producing state machine over an oracle of collaborator outcomes.

JavaScript strings are modelled as Lean `String`/`List Char`; the JS
whitespace class `\s` is modelled by `Char.isWhitespace`, and JS
`toLowerCase` by `Char.toLower` (both agree on ASCII input, which is all
the markdown grammar of this parser inspects).  Impure timestamps
(`new Date().toISOString()`) are passed in as an explicit `now`
parameter.
-/

/-! ## Data model (src/types: AwesomeItem / AwesomeCategory / AwesomeCatalog, v2 shape) -/

/-- Embeds `AwesomeItem`: one curated link entry.  `description?` and
`subcategory?` are optional fields, so `Option String` here;
a missing field and a field set to `undefined` are both `none`
(JSON serialization drops both). -/
structure AwesomeItem where
  title : String
  url : String
  description : Option String
  category : String
  subcategory : Option String
deriving Repr, DecidableEq

/-- Embeds `AwesomeCategory` (v2 tree shape): a tree node with its own
items and nested child categories. -/
structure AwesomeCategory where
  title : String
  slug : String
  items : List AwesomeItem
  children : List AwesomeCategory
deriving Repr

/-- Embeds the `meta` object of `AwesomeCatalog`.  `totalItems` and
`version` are JS numbers; the values this code produces are integers. -/
structure AwesomeMeta where
  updatedAt : String
  totalItems : Int
  version : Int
deriving Repr, DecidableEq

/-- Embeds `AwesomeCatalog`: category tree, flat item list, metadata. -/
structure AwesomeCatalog where
  tree : List AwesomeCategory
  list : List AwesomeItem
  meta : AwesomeMeta
deriving Repr

/-! ## JS string primitives

Each helper mirrors one JavaScript string operation used by the source,
working over `String.data` character lists. -/

/-- JS `String.prototype.trimEnd`: remove trailing whitespace. -/
def jsTrimEnd (s : String) : String :=
  String.mk (s.data.reverse.dropWhile Char.isWhitespace).reverse

/-- JS `String.prototype.trim`: remove leading and trailing whitespace. -/
def jsTrim (s : String) : String :=
  String.mk ((s.data.dropWhile Char.isWhitespace).reverse.dropWhile Char.isWhitespace).reverse

/-- JS `String.prototype.toLowerCase` (ASCII case mapping). -/
def jsToLower (s : String) : String :=
  String.mk (s.data.map Char.toLower)

/-- Does `hay` begin with `pat`?  (Helper for `jsIncludes`.) -/
def listStartsWith : List Char → List Char → Bool
  | [], _ => true
  | _ :: _, [] => false
  | p :: ps, h :: hs => p == h && listStartsWith ps hs

/-- Does `hay` contain `pat` as a contiguous run?  (Helper for `jsIncludes`.) -/
def listContains (pat : List Char) : List Char → Bool
  | [] => listStartsWith pat []
  | h :: hs => listStartsWith pat (h :: hs) || listContains pat hs

/-- JS `String.prototype.includes`: substring test (every string
contains `""`). -/
def jsIncludes (hay needle : String) : Bool :=
  listContains needle.data hay.data

/-- JS `content.split(/\r?\n/)` helper: `acc` holds the current line
reversed; on `\n` one optional preceding `\r` is removed. -/
def splitLinesAux : List Char → List Char → List String
  | [], acc => [String.mk acc.reverse]
  | '\n' :: rest, acc =>
    String.mk (match acc with
               | '\r' :: t => t
               | other => other).reverse :: splitLinesAux rest []
  | c :: rest, acc => splitLinesAux rest (c :: acc)

/-- JS `content.split(/\r?\n/)`: split into lines at `\n`, consuming an
immediately preceding `\r` with the separator. -/
def splitLines (s : String) : List String :=
  splitLinesAux s.data []

/-- JS `String.prototype.split(/\s+/)` helper.  The flag records whether
the scanner is inside a whitespace separator run; `acc` holds the
current field reversed.  A leading run yields a leading `""` field and a
trailing run a trailing `""` field, exactly as in JS. -/
def jsSplitWsAux : Bool → List Char → List Char → List String
  | _, [], acc => [String.mk acc.reverse]
  | inRun, c :: rest, acc =>
    if c.isWhitespace then
      if inRun then jsSplitWsAux true rest acc
      else String.mk acc.reverse :: jsSplitWsAux true rest []
    else jsSplitWsAux false rest (c :: acc)

/-- JS `String.prototype.split(/\s+/)`. -/
def jsSplitWs (s : String) : List String :=
  jsSplitWsAux false s.data []

/-! ## slugify (src/lib/utils.ts) -/

/-- JS regex `\w` character class: `[A-Za-z0-9_]`. -/
def isJsWordChar (c : Char) : Bool :=
  c.isAlphanum || c == '_'

/-- JS `replace(/\s+/g, "-")`: each maximal whitespace run becomes one
hyphen.  The flag records whether the previous character was whitespace. -/
def wsRunsToHyphen : Bool → List Char → List Char
  | _, [] => []
  | inRun, c :: rest =>
    if c.isWhitespace then
      if inRun then wsRunsToHyphen true rest
      else '-' :: wsRunsToHyphen true rest
    else c :: wsRunsToHyphen false rest

/-- JS `replace(/\-\-+/g, "-")`: each maximal hyphen run collapses to one
hyphen (a run of length one is already one hyphen, so collapsing every
run is the same replacement). -/
def collapseHyphenRuns : Bool → List Char → List Char
  | _, [] => []
  | inRun, c :: rest =>
    if c == '-' then
      if inRun then collapseHyphenRuns true rest
      else '-' :: collapseHyphenRuns true rest
    else c :: collapseHyphenRuns false rest

/-- Embeds `slugify` from `src/lib/utils.ts`: lower-case, whitespace runs
to `-`, drop non-word non-hyphen characters (`replace(/[^\w\-]+/g, "")`),
collapse `--+`, trim leading (regex `^-+`) and trailing (regex `-+$`)
hyphens. -/
def slugify (text : String) : String :=
  let lowered := text.data.map Char.toLower
  let hyphenated := wsRunsToHyphen false lowered
  let wordsOnly := hyphenated.filter (fun c => isJsWordChar c || c == '-')
  let collapsed := collapseHyphenRuns false wordsOnly
  let noLead := collapsed.dropWhile (· == '-')
  String.mk (noLead.reverse.dropWhile (· == '-')).reverse

/-! ## mdast model (the node shapes consumed by src/lib/parser.ts)

Inline nodes are a mutual pair (an inline node / a list of inline nodes)
so that text extraction is structurally recursive and computable by the
kernel. -/

mutual
/-- An mdast inline (phrasing) node: a text node or a link node. -/
inductive MdInline where
  | text (value : String)
  | link (url : String) (children : MdInlines)
deriving Repr
/-- A sequence of mdast inline nodes. -/
inductive MdInlines where
  | nil
  | cons (head : MdInline) (tail : MdInlines)
deriving Repr
end

/-- An mdast paragraph: a sequence of inline children. -/
structure MdParagraph where
  children : MdInlines
deriving Repr

/-- An mdast list item.  The source reads `item.children[0] as Paragraph`,
so the children are modelled as paragraphs. -/
structure MdListItem where
  children : List MdParagraph
deriving Repr

/-- An mdast block-level node as inspected by `parseAwesomeList`:
a heading with a depth, a bullet list, or any other node type (which the
builder ignores). -/
inductive MdBlock where
  | heading (depth : Nat) (children : MdInlines)
  | list (children : List MdListItem)
  | other
deriving Repr

/-- An mdast root: the ordered top-level block nodes. -/
structure MdRoot where
  children : List MdBlock
deriving Repr

mutual
/-- Embeds `extractText` from `src/lib/parser.ts` on a single node:
a text node yields its value, a node with children the concatenation of
their texts, and a childless non-text node `""`. -/
def extractText : MdInline → String
  | .text v => v
  | .link _ cs => extractTextList cs
/-- Embeds `children.map(extractText).join("")`. -/
def extractTextList : MdInlines → String
  | .nil => ""
  | .cons x xs => extractText x ++ extractTextList xs
end

/-! ## simpleParseMarkdown (src/lib/parser.ts fallback tokenizer)

The repository's own markdown tokenizer.  The production path delegates
to the remark library (external to this repository); on the constructs
this grammar uses (H2/H3 headings and link bullet lists) both produce
the same block events, and the builder is additionally verified for
every `MdRoot` whatsoever. -/

/-- Measure a maximal leading whitespace run: its length and the rest. -/
def wsSplit : List Char → Nat × List Char
  | [] => (0, [])
  | c :: rest =>
    if c.isWhitespace then
      let (n, r) := wsSplit rest
      (n + 1, r)
    else (0, c :: rest)

/-- Match the `\s+(.+)$` part of the heading regexes against the
characters after the `##`/`###` marker, returning the capture.  With a
greedy `\s+` the capture is everything after the maximal whitespace run;
if only whitespace follows, backtracking leaves the last whitespace
character as the capture (needing at least two characters in total). -/
def matchHeadingAfter (cs : List Char) : Option String :=
  match wsSplit cs with
  | (0, _) => none
  | (n + 1, []) => if n + 1 ≥ 2 then some (String.mk (cs.drop n)) else none
  | (_ + 1, rest) => some (String.mk rest)

/-- Match JS `/^##\s+(.+)$/` (note `###` fails it: the third `#` is not
whitespace). -/
def matchH2 (line : String) : Option String :=
  match line.data with
  | '#' :: '#' :: rest => matchHeadingAfter rest
  | _ => none

/-- Match JS `/^###\s+(.+)$/`. -/
def matchH3 (line : String) : Option String :=
  match line.data with
  | '#' :: '#' :: '#' :: rest => matchHeadingAfter rest
  | _ => none

/-- Match the trailing `(?:\s+-\s*(.*))?$` of the bullet regex against
the characters after the closing `)`.  An empty tail matches with the
group skipped (capture `""`, as `m[3] || ""`); otherwise the group needs
at least one whitespace character, then `-`, then the greedy `\s*`, the
rest being the capture. -/
def bulletTail (tail : List Char) : Option String :=
  if tail.isEmpty then some ""
  else
    match wsSplit tail with
    | (0, _) => none
    | (_ + 1, '-' :: rest) => some (String.mk (rest.dropWhile Char.isWhitespace))
    | (_ + 1, _) => none

/-- Match `\((.+?)\)(?:\s+-\s*(.*))?$`: scan for the lazily-shortest
non-empty URL whose closing `)` leaves a tail accepted by `bulletTail`;
on rejection the candidate `)` is absorbed into the URL, as regex
backtracking does. -/
def bulletUrl (acc : List Char) : List Char → Option (String × String)
  | [] => none
  | ')' :: rest =>
    if acc.isEmpty then bulletUrl [')'] rest
    else
      match bulletTail rest with
      | some d => some (String.mk acc.reverse, d)
      | none => bulletUrl (')' :: acc) rest
  | c :: rest => bulletUrl (c :: acc) rest

/-- Match `\[(.+?)\]\(...`: scan for the lazily-shortest non-empty title
followed by `](` such that the remainder completes the bullet regex; on
failure the `]` is absorbed into the title and scanning continues, as
regex backtracking does. -/
def bulletTitle (acc : List Char) : List Char → Option (String × String × String)
  | [] => none
  | ']' :: '(' :: rest =>
    if acc.isEmpty then bulletTitle [']'] ('(' :: rest)
    else
      match bulletUrl [] rest with
      | some (u, d) => some (String.mk acc.reverse, u, d)
      | none => bulletTitle (']' :: acc) ('(' :: rest)
  | c :: rest => bulletTitle (c :: acc) rest

/-- Match JS `/^-\s+\[(.+?)\]\((.+?)\)(?:\s+-\s*(.*))?$/`, returning
(title, url, description), with the description `""` when the optional
group is absent (the source reads `m[3] || ""`). -/
def matchBullet (line : String) : Option (String × String × String) :=
  match line.data with
  | '-' :: rest =>
    match wsSplit rest with
    | (0, _) => none
    | (_ + 1, '[' :: rest2) => bulletTitle [] rest2
    | (_ + 1, _) => none
  | _ => none

/-- One buffered bullet entry of `simpleParseMarkdown`
(`{ title, url, desc }`). -/
structure BulletEntry where
  title : String
  url : String
  desc : String
deriving Repr, DecidableEq

/-- The mdast list item `simpleParseMarkdown` emits for one buffered
entry: a paragraph holding the link (with the title as its text child)
followed by a text node ``" - " ++ desc`` (or `""` when the description
is empty). -/
def entryListItem (e : BulletEntry) : MdListItem :=
  ⟨[⟨.cons (.link e.url (.cons (.text e.title) .nil))
      (.cons (.text (if e.desc = "" then "" else " - " ++ e.desc)) .nil)⟩]⟩

/-- Embeds `flushList`: append a list node for the buffered entries, if
any, and clear the buffer. -/
def flushList (blocks : List MdBlock) (buf : List BulletEntry) : List MdBlock :=
  if buf.isEmpty then blocks
  else blocks ++ [MdBlock.list (buf.map entryListItem)]

/-- Embeds the per-line step of `simpleParseMarkdown`: the line is
`trimEnd`ed, then tried against the H2 regex, the H3 regex, the bullet
regex and finally the blank-line rule (a blank line flushes a non-empty
buffer; any other unmatched line is skipped without flushing). -/
def spmLine (st : List MdBlock × List BulletEntry) (raw : String) :
    List MdBlock × List BulletEntry :=
  let line := jsTrimEnd raw
  match matchH2 line with
  | some t => (flushList st.1 st.2 ++ [.heading 2 (.cons (.text t) .nil)], [])
  | none =>
  match matchH3 line with
  | some t => (flushList st.1 st.2 ++ [.heading 3 (.cons (.text t) .nil)], [])
  | none =>
  match matchBullet line with
  | some (t, u, d) => (st.1, st.2 ++ [⟨t, u, d⟩])
  | none =>
    if jsTrim line == "" && !st.2.isEmpty then (flushList st.1 st.2, [])
    else st

/-- Embeds `simpleParseMarkdown` from `src/lib/parser.ts`: split into
lines, run the per-line step, and flush any trailing list buffer. -/
def simpleParseMarkdown (content : String) : MdRoot :=
  let st := (splitLines content).foldl spmLine ([], [])
  ⟨flushList st.1 st.2⟩

/-! ## parseListItem and the catalog builder (src/lib/parser.ts) -/

/-- Locate the first link node of a paragraph (`children.find`), giving
its url, its children, and the inline nodes after it
(`children.slice(firstLinkIndex + 1)`; the source's `findIndex` with
reference equality finds that same first link). -/
def afterFirstLink : MdInlines → Option (String × MdInlines × MdInlines)
  | .nil => none
  | .cons (.link u cs) rest => some (u, cs, rest)
  | .cons (.text _) rest => afterFirstLink rest

/-- Embeds `replace(/^\s*[—–-]\s*/, "")`: strip one leading separator
(em dash, en dash or hyphen) together with whitespace around it; if no
separator follows the leading whitespace the string is unchanged. -/
def stripLeadingDash (s : String) : String :=
  match s.data.dropWhile Char.isWhitespace with
  | c :: rest =>
    if c == '—' || c == '–' || c == '-' then
      String.mk (rest.dropWhile Char.isWhitespace)
    else s
  | [] => s

/-- Embeds `parseListItem` from `src/lib/parser.ts`: take the item's
first child as a paragraph; require a first link with a non-empty url
and a non-empty trimmed title; the description is the text after the
link with a leading separator stripped and then trimmed, `undefined`
(`none`) when empty. -/
def parseListItem (item : MdListItem) (categoryTitle : String)
    (subcategoryTitle : Option String) : Option AwesomeItem :=
  match item.children.head? with
  | none => none
  | some paragraph =>
    match paragraph.children with
    | .nil => none
    | _ =>
      match afterFirstLink paragraph.children with
      | none => none
      | some (url, linkChildren, descNodes) =>
        if url = "" then none
        else
          let title := jsTrim (extractTextList linkChildren)
          if title = "" then none
          else
            let description := jsTrim (stripLeadingDash (extractTextList descNodes))
            some { title := title
                   url := url
                   description := if description = "" then none else some description
                   category := categoryTitle
                   subcategory := subcategoryTitle }

/-- The in-progress subcategory pointed to by `currentSubcategory`.
The subcategory object is pushed into its parent's `children` at
creation in the source and then mutated through the pointer; here it is
kept out of `children` until closed. -/
structure CurSub where
  title : String
  slug : String
  items : List AwesomeItem
deriving Repr

/-- The in-progress category pointed to by `currentCategory`:
its direct items, its already-closed subcategories, and the current
subcategory if one is open. -/
structure CurCat where
  title : String
  slug : String
  items : List AwesomeItem
  children : List AwesomeCategory
  sub : Option CurSub
deriving Repr

/-- The builder state of the `parseAwesomeList` loop: the closed
top-level categories, the current category (if any), and the running
flat list. -/
structure BuildState where
  tree : List AwesomeCategory
  cur : Option CurCat
  list : List AwesomeItem
deriving Repr

/-- Close the current subcategory, moving it into `children` (in the
source it already sits there and mutation stops; subcategories are
created with empty `children`, "future-proof for deeper nesting"). -/
def closeSub (c : CurCat) : CurCat :=
  match c.sub with
  | none => c
  | some s => { c with children := c.children ++ [⟨s.title, s.slug, s.items, []⟩],
                       sub := none }

/-- Close the current category (if any) into a list of finished
categories. -/
def closeCur : Option CurCat → List AwesomeCategory
  | none => []
  | some c =>
    let c' := closeSub c
    [⟨c'.title, c'.slug, c'.items, c'.children⟩]

/-- One step of the `parseAwesomeList` loop over the mdast children:
an H2 with a non-empty trimmed title starts a new top-level category
(slug `slugify title`) and clears the subcategory; an H3 under a current
category with a non-empty title starts a new subcategory (slug
`slugify (category.title ++ "-" ++ title)`); a list node parses each of
its items into the current subcategory if one is open, else the current
category, also appending to the flat list; everything else is ignored. -/
def buildStep (st : BuildState) (node : MdBlock) : BuildState :=
  match node with
  | .heading depth children =>
    if depth = 2 then
      let title := jsTrim (extractTextList children)
      if title = "" then st
      else { tree := st.tree ++ closeCur st.cur
             cur := some ⟨title, slugify title, [], [], none⟩
             list := st.list }
    else if depth = 3 then
      match st.cur with
      | none => st
      | some c =>
        let title := jsTrim (extractTextList children)
        if title = "" then st
        else
          let c' := closeSub c
          { st with cur := some { c' with
              sub := some ⟨title, slugify (c.title ++ "-" ++ title), []⟩ } }
    else st
  | .list items =>
    match st.cur with
    | none => st
    | some c =>
      let parsed := items.filterMap
        (fun it => parseListItem it c.title (c.sub.map CurSub.title))
      match c.sub with
      | none =>
        { st with cur := some { c with items := c.items ++ parsed }
                  list := st.list ++ parsed }
      | some s =>
        { st with cur := some { c with sub := some { s with items := s.items ++ parsed } }
                  list := st.list ++ parsed }
  | .other => st

/-- Embeds the loop and return of `parseAwesomeList` over an already
tokenized document.  `now` stands for `new Date().toISOString()`. -/
def parseAwesomeListAst (now : String) (root : MdRoot) : AwesomeCatalog :=
  let st := root.children.foldl buildStep ⟨[], none, []⟩
  { tree := st.tree ++ closeCur st.cur
    list := st.list
    meta := ⟨now, (st.list.length : Int), 2⟩ }

/-- Embeds `parseAwesomeList` from `src/lib/parser.ts`: tokenize the
markdown and build the catalog. -/
def parseAwesomeList (now : String) (content : String) : AwesomeCatalog :=
  parseAwesomeListAst now (simpleParseMarkdown content)

/-! ## searchItems and matchesSearch (src/lib/parser.ts) -/

/-- Embeds `matchesSearch`: the haystack is the space-joined,
lower-cased non-empty fields (`filter(Boolean)` drops `undefined` and
`""`), and every term must be a substring of it. -/
def matchesSearch (item : AwesomeItem) (terms : List String) : Bool :=
  let fields := [some item.title, item.description, some item.category,
                 item.subcategory].filterMap id
  let text := jsToLower (String.intercalate " " (fields.filter (fun s => !(s == ""))))
  terms.all (fun term => jsIncludes text term)

/-- Embeds the `for` loop of `searchItems`: push each matching item,
breaking as soon as `results.length >= limit` (checked after each
iteration, matched or not). -/
def searchLoop (terms : List String) (limit : Nat) :
    List AwesomeItem → List AwesomeItem → List AwesomeItem
  | [], results => results
  | item :: rest, results =>
    let results' := if matchesSearch item terms then results ++ [item] else results
    if limit ≤ results'.length then results'
    else searchLoop terms limit rest results'

/-- Embeds `searchItems` from `src/lib/parser.ts`: an empty query
returns `[]`; otherwise the lower-cased query is split on whitespace
into terms and the flat list scanned in order up to `limit` results
(default 20). -/
def searchItems (catalog : AwesomeCatalog) (query : String)
    (limit : Nat := 20) : List AwesomeItem :=
  if query = "" then []
  else searchLoop (jsSplitWs (jsToLower query)) limit catalog.list []

/-! ## flattenItemsFromTree and normalizeCatalog (src/lib/kv.ts) -/

/-- Embeds the inner `walk` of `flattenItemsFromTree`: pre-order,
depth-first item collection (a node's items, then its children's,
children in order).  The source's `if (items.length)` / `if
(children.length)` guards skip empty pushes and empty walks, which is
the identity. -/
def flattenWalk : List AwesomeCategory → List AwesomeItem
  | [] => []
  | ⟨_, _, items, children⟩ :: rest =>
    items ++ flattenWalk children ++ flattenWalk rest

/-- Embeds `flattenItemsFromTree` from `src/lib/kv.ts` (a non-array or
empty tree yields `[]`). -/
def flattenItemsFromTree (tree : List AwesomeCategory) : List AwesomeItem :=
  if tree.isEmpty then [] else flattenWalk tree

/-- The `meta` field of a decoded raw catalog value: each field is
`none` when absent or not of the type the source's `typeof` checks
accept. -/
structure RawMeta where
  updatedAt : Option String
  totalItems : Option Int
  version : Option Int
deriving Repr

/-- A decoded raw catalog-like object as `normalizeCatalog` receives it
(the non-object inputs the source rejects up front are not represented;
every claim feeds it objects).  `none` models an absent field or one of
the wrong type. -/
structure RawCatalog where
  tree : Option (List AwesomeCategory)
  categories : Option (List AwesomeCategory)
  list : Option (List AwesomeItem)
  meta : Option RawMeta
  updatedAt : Option String
deriving Repr

/-- Embeds `normalizeCatalog` from `src/lib/kv.ts`.  `now` stands for
`new Date().toISOString()`.  `tree` is preferred over the legacy
`categories`; an absent or empty hierarchy is unrecognizable (`none`).
A present non-empty `list` is trusted, else rebuilt from the tree.
`legacyUpdated` mirrors `(raw.meta && raw.meta.updatedAt) || raw.updatedAt`
(an empty `meta.updatedAt` is falsy and falls through), then must be a
non-empty string to be reused.  `totalItems` is reused when a
non-negative number, `version` when a number (else 2). -/
def normalizeCatalog (now : String) (raw : RawCatalog) : Option AwesomeCatalog :=
  let tree? := match raw.tree with
    | some t => some t
    | none => raw.categories
  match tree? with
  | none => none
  | some tree =>
    if tree.isEmpty then none
    else
      let list := match raw.list with
        | some l => if l.isEmpty then flattenItemsFromTree tree else l
        | none => flattenItemsFromTree tree
      let legacyUpdated : Option String := match raw.meta with
        | some m =>
          match m.updatedAt with
          | some s => if s = "" then raw.updatedAt else some s
          | none => raw.updatedAt
        | none => raw.updatedAt
      let updatedAt := match legacyUpdated with
        | some s => if s = "" then now else s
        | none => now
      let totalItems : Int := match raw.meta with
        | some m =>
          match m.totalItems with
          | some n => if 0 ≤ n then n else (list.length : Int)
          | none => (list.length : Int)
        | none => (list.length : Int)
      let version : Int := match raw.meta with
        | some m => m.version.getD 2
        | none => 2
      some { tree := tree, list := list, meta := ⟨updatedAt, totalItems, version⟩ }

/-- The raw object a canonical catalog becomes after a JSON round trip
(`JSON.parse(JSON.stringify(catalog))`): every present field survives
with its value; optional fields that are `undefined` are dropped, which
`Option` already represents. -/
def catalogAsRaw (c : AwesomeCatalog) : RawCatalog :=
  { tree := some c.tree
    categories := none
    list := some c.list
    meta := some ⟨some c.meta.updatedAt, some c.meta.totalItems, some c.meta.version⟩
    updatedAt := none }

/-! ## The sync handler (src/app/api/admin/sync/route.ts)

The handler is modelled as a function from an oracle of collaborator
outcomes (`SyncWorld`) to the sequence of externally visible calls it
makes (`SyncEvent` trace) plus its response; `Except.error` outcomes
model thrown exceptions, caught by the handler's `try/catch` into a 500
response. -/

/-- The result of `fetchAwesomeReadme`. -/
structure FetchResult where
  content : String
  source : String
  etag : Option String
  isModified : Bool
deriving Repr, DecidableEq

/-- One externally visible collaborator call of a sync cycle. -/
inductive SyncEvent where
  | fetchReadme (force : Bool)
  | getCatalogEv
  | persistEv (catalog : AwesomeCatalog)
  | storeEtagEv (etag : String)
deriving Repr

/-- The response value of a sync cycle. -/
inductive SyncResponse where
  | unauthorized
  | notModified (source : String)
  | stored (source : String) (meta : AwesomeMeta)
  | serverError (message : String)
deriving Repr

/-- Oracle for one sync cycle: the outcome of each collaborator call
the handler may make, plus the timestamp `parseAwesomeList` will stamp.
`parseResult` models the markdown tokenizer of the production path
throwing (a hard tokenization failure). -/
structure SyncWorld where
  fetch1 : Except String FetchResult
  fetch2 : Except String FetchResult
  getCat : Except String (Option AwesomeCatalog)
  parseResult : Except String Unit
  persistResult : Except String Unit
  storeEtagResult : Except String Unit
  now : String

/-- The tail of the handler after a fetch reported modified content:
parse (a throw aborts with 500), `await persistCatalog(catalog)` (a
throw aborts with 500), then `if (etag) await storeEtag(etag)`. -/
def afterFetch (tr : List SyncEvent) (f : FetchResult) (w : SyncWorld) :
    List SyncEvent × SyncResponse :=
  match w.parseResult with
  | .error e => (tr, .serverError e)
  | .ok _ =>
    let catalog := parseAwesomeList w.now f.content
    let tr2 := tr ++ [SyncEvent.persistEv catalog]
    match w.persistResult with
    | .error e => (tr2, .serverError e)
    | .ok _ =>
      match f.etag with
      | none => (tr2, .stored f.source catalog.meta)
      | some e =>
        let tr3 := tr2 ++ [SyncEvent.storeEtagEv e]
        match w.storeEtagResult with
        | .error msg => (tr3, .serverError msg)
        | .ok _ => (tr3, .stored f.source catalog.meta)

/-- Embeds `POST` of `src/app/api/admin/sync/route.ts` (the `GET`
handler delegates to it).  `authOk` abstracts `verifyCronSecret`,
`force` the `?force=1` query / `x-force-sync` header.  A not-modified
first fetch checks for an existing catalog and, when none is persisted,
retries once in force mode; a still-not-modified cycle ends with
`stored: false`; otherwise the content is parsed and persisted and
then, only on success and when an ETag is present, the ETag stored. -/
def syncHandler (authOk force : Bool) (w : SyncWorld) :
    List SyncEvent × SyncResponse :=
  if !authOk then ([], .unauthorized)
  else
    match w.fetch1 with
    | .error e => ([.fetchReadme force], .serverError e)
    | .ok f1 =>
      if f1.isModified then afterFetch [.fetchReadme force] f1 w
      else
        match w.getCat with
        | .error e => ([.fetchReadme force, .getCatalogEv], .serverError e)
        | .ok (some _) => ([.fetchReadme force, .getCatalogEv], .notModified f1.source)
        | .ok none =>
          match w.fetch2 with
          | .error e =>
            ([.fetchReadme force, .getCatalogEv, .fetchReadme true], .serverError e)
          | .ok f2 =>
            if f2.isModified then
              afterFetch [.fetchReadme force, .getCatalogEv, .fetchReadme true] f2 w
            else
              ([.fetchReadme force, .getCatalogEv, .fetchReadme true],
               .notModified f2.source)

/-! ## Derived counting function used to state the catalog invariants -/

/-- The sum of `items.length` over every category node reachable from a
tree (each node's own items plus all descendants'). -/
def treeItemCount : List AwesomeCategory → Nat
  | [] => 0
  | ⟨_, _, items, children⟩ :: rest =>
    items.length + treeItemCount children + treeItemCount rest

/-! ## Proof-support definitions

State predicates and projections used to run invariants through the
builder loop. -/

/-- The items held by the current subcategory pointer, if any. -/
def subItems : Option CurSub → List AwesomeItem
  | none => []
  | some s => s.items

/-- All items reachable from the current-category pointer, in pre-order:
its direct items, its closed subcategories' items, then the open
subcategory's items. -/
def curItems : Option CurCat → List AwesomeItem
  | none => []
  | some c => c.items ++ flattenWalk c.children ++ subItems c.sub

/-- Shape invariant of the current category: while no subcategory has
ever been opened, `children` is still empty (direct items precede every
subcategory of a category in document order). -/
def curShapeOk : Option CurCat → Prop
  | none => True
  | some c => c.sub = none → c.children = []

/-- The builder loop invariant: the running flat list is exactly the
pre-order flatten of the closed tree plus the current category's items,
and the current category is well-shaped. -/
def buildInv (st : BuildState) : Prop :=
  st.list = flattenWalk st.tree ++ curItems st.cur ∧ curShapeOk st.cur

/-- Slug specification of a finished category: its slug is the slugified
title, and each child's slug is the slugified parent-title-prefixed
title. -/
def catSlugSpec (c : AwesomeCategory) : Prop :=
  c.slug = slugify c.title ∧
  ∀ d ∈ c.children, d.slug = slugify (c.title ++ "-" ++ d.title)

/-- Slug specification of the current category pointer. -/
def curSlugSpec : Option CurCat → Prop
  | none => True
  | some c =>
    c.slug = slugify c.title ∧
    (∀ d ∈ c.children, d.slug = slugify (c.title ++ "-" ++ d.title)) ∧
    (∀ s, c.sub = some s → s.slug = slugify (c.title ++ "-" ++ s.title))

/-- The builder slug invariant. -/
def slugInv (st : BuildState) : Prop :=
  (∀ c ∈ st.tree, catSlugSpec c) ∧ curSlugSpec st.cur

/-! # Theorems -/

/-! ## Flatten lemmas -/

theorem flattenWalk_nil : flattenWalk [] = [] := by
  simp [flattenWalk]

theorem flattenWalk_cons (c : AwesomeCategory) (rest : List AwesomeCategory) :
    flattenWalk (c :: rest) = c.items ++ flattenWalk c.children ++ flattenWalk rest := by
  cases c
  simp [flattenWalk]

theorem flattenWalk_append (l₁ l₂ : List AwesomeCategory) :
    flattenWalk (l₁ ++ l₂) = flattenWalk l₁ ++ flattenWalk l₂ := by
  induction l₁ with
  | nil => simp [flattenWalk]
  | cons c rest ih => cases c; simp [flattenWalk, ih]

theorem flattenItemsFromTree_eq_flattenWalk (t : List AwesomeCategory) :
    flattenItemsFromTree t = flattenWalk t := by
  cases t with
  | nil => simp [flattenItemsFromTree, flattenWalk]
  | cons c rest => simp [flattenItemsFromTree]

theorem length_flattenWalk (l : List AwesomeCategory) :
    (flattenWalk l).length = treeItemCount l := by
  induction l using flattenWalk.induct with
  | case1 => simp [flattenWalk, treeItemCount]
  | case2 title slug items children rest ih1 ih2 =>
    simp [flattenWalk, treeItemCount, ih1, ih2]
    omega

/-! ## Reduction equations for the builder step -/

theorem buildStep_other (st : BuildState) : buildStep st .other = st := rfl

theorem buildStep_heading_deep (st : BuildState) (depth : Nat) (children : MdInlines)
    (h2 : depth ≠ 2) (h3 : depth ≠ 3) :
    buildStep st (.heading depth children) = st := by
  simp [buildStep, h2, h3]

theorem buildStep_h2_empty (st : BuildState) (children : MdInlines)
    (ht : jsTrim (extractTextList children) = "") :
    buildStep st (.heading 2 children) = st := by
  simp [buildStep, ht]

theorem buildStep_h2 (st : BuildState) (children : MdInlines)
    (ht : jsTrim (extractTextList children) ≠ "") :
    buildStep st (.heading 2 children) =
      { tree := st.tree ++ closeCur st.cur
        cur := some ⟨jsTrim (extractTextList children),
                     slugify (jsTrim (extractTextList children)), [], [], none⟩
        list := st.list } := by
  simp [buildStep, ht]

theorem buildStep_h3_noCur (st : BuildState) (children : MdInlines)
    (hc : st.cur = none) :
    buildStep st (.heading 3 children) = st := by
  simp [buildStep, hc]

theorem buildStep_h3_empty (st : BuildState) (children : MdInlines) (c : CurCat)
    (hc : st.cur = some c) (ht : jsTrim (extractTextList children) = "") :
    buildStep st (.heading 3 children) = st := by
  simp [buildStep, hc, ht]

theorem buildStep_h3 (st : BuildState) (children : MdInlines) (c : CurCat)
    (hc : st.cur = some c) (ht : jsTrim (extractTextList children) ≠ "") :
    buildStep st (.heading 3 children) =
      { st with cur := some ⟨c.title, c.slug, c.items, (closeSub c).children,
          some ⟨jsTrim (extractTextList children),
                slugify (c.title ++ "-" ++ jsTrim (extractTextList children)),
                []⟩⟩ } := by
  simp only [buildStep, hc, ht, if_neg ht]
  cases hs : c.sub <;> simp [closeSub, hs]

theorem buildStep_list_noCur (st : BuildState) (items : List MdListItem)
    (hc : st.cur = none) :
    buildStep st (.list items) = st := by
  simp [buildStep, hc]

theorem buildStep_list_direct (st : BuildState) (items : List MdListItem) (c : CurCat)
    (hc : st.cur = some c) (hs : c.sub = none) :
    buildStep st (.list items) =
      { st with
        cur := some { c with items := (c.items
          ++ items.filterMap (fun it => parseListItem it c.title (c.sub.map CurSub.title))) }
        list := (st.list
          ++ items.filterMap (fun it => parseListItem it c.title (c.sub.map CurSub.title))) } := by
  simp [buildStep, hc, hs]

theorem buildStep_list_sub (st : BuildState) (items : List MdListItem) (c : CurCat)
    (s : CurSub) (hc : st.cur = some c) (hs : c.sub = some s) :
    buildStep st (.list items) =
      { st with
        cur := some { c with sub := some { s with items := (s.items
          ++ items.filterMap (fun it => parseListItem it c.title (c.sub.map CurSub.title))) } }
        list := (st.list
          ++ items.filterMap (fun it => parseListItem it c.title (c.sub.map CurSub.title))) } := by
  simp [buildStep, hc, hs]

/-! ## Builder invariant: the flat list is the pre-order flatten of the tree -/

theorem flattenWalk_closeCur (cur : Option CurCat) :
    flattenWalk (closeCur cur) = curItems cur := by
  cases cur with
  | none => simp [closeCur, curItems, flattenWalk]
  | some c =>
    cases hs : c.sub with
    | none =>
      simp [closeCur, closeSub, hs, curItems, subItems, flattenWalk_cons, flattenWalk]
    | some s =>
      simp [closeCur, closeSub, hs, curItems, subItems, flattenWalk_cons,
            flattenWalk, flattenWalk_append]

theorem closeSub_items (c : CurCat) : (closeSub c).items = c.items := by
  cases hs : c.sub <;> simp [closeSub, hs]

theorem closeSub_title (c : CurCat) : (closeSub c).title = c.title := by
  cases hs : c.sub <;> simp [closeSub, hs]

theorem flattenWalk_closeSub_children (c : CurCat) :
    flattenWalk (closeSub c).children = flattenWalk c.children ++ subItems c.sub := by
  cases hs : c.sub with
  | none => simp [closeSub, hs, subItems]
  | some s =>
    simp [closeSub, hs, subItems, flattenWalk_append, flattenWalk_cons, flattenWalk]

theorem buildStep_inv (st : BuildState) (node : MdBlock) (h : buildInv st) :
    buildInv (buildStep st node) := by
  obtain ⟨h1, h2⟩ := h
  cases node with
  | other => exact ⟨h1, h2⟩
  | heading depth children =>
    by_cases hd2 : depth = 2
    · subst hd2
      by_cases ht : jsTrim (extractTextList children) = ""
      · rw [buildStep_h2_empty st children ht]; exact ⟨h1, h2⟩
      · rw [buildStep_h2 st children ht]
        constructor
        · rw [h1]
          simp [curItems, subItems, flattenWalk, flattenWalk_append, flattenWalk_closeCur]
        · intro _
          rfl
    · by_cases hd3 : depth = 3
      · subst hd3
        cases hc : st.cur with
        | none => rw [buildStep_h3_noCur st children hc]; exact ⟨h1, h2⟩
        | some c =>
          by_cases ht : jsTrim (extractTextList children) = ""
          · rw [buildStep_h3_empty st children c hc ht]; exact ⟨h1, h2⟩
          · rw [buildStep_h3 st children c hc ht]
            constructor
            · rw [h1, hc]
              simp [curItems, subItems, closeSub_items, flattenWalk_closeSub_children]
            · simp [curShapeOk]
      · rw [buildStep_heading_deep st depth children hd2 hd3]; exact ⟨h1, h2⟩
  | list items =>
    cases hc : st.cur with
    | none => rw [buildStep_list_noCur st items hc]; exact ⟨h1, h2⟩
    | some c =>
      cases hs : c.sub with
      | none =>
        have hch : c.children = [] := by
          have h2' := h2
          rw [hc] at h2'
          exact h2' hs
        rw [buildStep_list_direct st items c hc hs]
        constructor
        · rw [h1, hc]
          simp [curItems, subItems, hs, hch, flattenWalk]
        · intro _
          exact hch
      | some s =>
        rw [buildStep_list_sub st items c s hc hs]
        constructor
        · rw [h1, hc]
          simp [curItems, subItems, hs]
        · simp [curShapeOk]

theorem foldl_buildStep_inv (l : List MdBlock) (st : BuildState) (h : buildInv st) :
    buildInv (l.foldl buildStep st) := by
  induction l generalizing st with
  | nil => exact h
  | cons n rest ih => exact ih _ (buildStep_inv _ _ h)

theorem buildInv_init : buildInv ⟨[], none, []⟩ := by
  constructor
  · simp [curItems, flattenWalk]
  · simp [curShapeOk]

theorem parseAst_list_eq_flatten (now : String) (root : MdRoot) :
    (parseAwesomeListAst now root).list =
      flattenWalk (parseAwesomeListAst now root).tree := by
  obtain ⟨h1, _⟩ := foldl_buildStep_inv root.children ⟨[], none, []⟩ buildInv_init
  simp only [parseAwesomeListAst]
  rw [flattenWalk_append, flattenWalk_closeCur]
  exact h1

/-! ## C1 and C2: catalog counting and flatten invariants -/

/-- C1: for every markdown document (and every timestamp the impure
`new Date().toISOString()` may produce), the catalog returned by
`parseAwesomeList` satisfies `meta.totalItems == list.length`, and
`list.length` equals the sum of the `items` lengths over every category
node reachable from `tree`. -/
theorem parse_totalItems_invariant (content now : String) :
    (parseAwesomeList now content).meta.totalItems =
        ((parseAwesomeList now content).list.length : Int) ∧
    (parseAwesomeList now content).list.length =
        treeItemCount (parseAwesomeList now content).tree := by
  constructor
  · rfl
  · show (parseAwesomeListAst now (simpleParseMarkdown content)).list.length =
      treeItemCount (parseAwesomeListAst now (simpleParseMarkdown content)).tree
    rw [parseAst_list_eq_flatten, length_flattenWalk]

theorem parse_flatten_helper (content now : String) :
    flattenItemsFromTree (parseAwesomeList now content).tree =
      (parseAwesomeList now content).list := by
  show flattenItemsFromTree (parseAwesomeListAst now (simpleParseMarkdown content)).tree =
    (parseAwesomeListAst now (simpleParseMarkdown content)).list
  rw [flattenItemsFromTree_eq_flattenWalk, ← parseAst_list_eq_flatten]

/-- C2: for every markdown document, the flat list of the catalog
returned by `parseAwesomeList` is exactly the pre-order, depth-first
flatten of its tree as computed by `flattenItemsFromTree` (each node's
own items, then its children's, children in document order) — so every
item of the tree traversal appears in the flat list exactly once and in
traversal order. -/
theorem parse_list_eq_flattenItemsFromTree (content now : String) :
    flattenItemsFromTree (parseAwesomeList now content).tree =
      (parseAwesomeList now content).list :=
  parse_flatten_helper content now

/-! ## C3: Scenario A -/

/-- C3 (Scenario A): parsing
`"## Tools\n### Editors\n- [VSCode](https://code.visualstudio.com/) - Free and open source code editor\n"`
yields one top-level category `"Tools"` (slug `"tools"`) whose only
child is `"Editors"` (slug `"tools-editors"`) holding exactly the
VSCode item, and the flat list is exactly that one item. -/
theorem parse_scenario_a (now : String) :
    (parseAwesomeList now
        "## Tools\n### Editors\n- [VSCode](https://code.visualstudio.com/) - Free and open source code editor\n").tree =
      [⟨"Tools", "tools", [],
        [⟨"Editors", "tools-editors",
          [⟨"VSCode", "https://code.visualstudio.com/",
            some "Free and open source code editor", "Tools", some "Editors"⟩], []⟩]⟩] ∧
    (parseAwesomeList now
        "## Tools\n### Editors\n- [VSCode](https://code.visualstudio.com/) - Free and open source code editor\n").list =
      [⟨"VSCode", "https://code.visualstudio.com/",
        some "Free and open source code editor", "Tools", some "Editors"⟩] :=
  ⟨rfl, rfl⟩

/-! ## C4: sibling slugs -/

theorem closeCur_slugSpec (cur : Option CurCat) (h : curSlugSpec cur) :
    ∀ x ∈ closeCur cur, catSlugSpec x := by
  cases cur with
  | none => intro x hx; simp [closeCur] at hx
  | some c =>
    intro x hx
    obtain ⟨hslug, hch, hsub⟩ := h
    cases hs : c.sub with
    | none =>
      simp [closeCur, closeSub, hs] at hx
      subst hx
      exact ⟨hslug, hch⟩
    | some s =>
      simp [closeCur, closeSub, hs] at hx
      subst hx
      refine ⟨hslug, ?_⟩
      intro d hd
      simp at hd
      rcases hd with hd | hd
      · exact hch d hd
      · subst hd
        exact hsub s hs

theorem buildStep_slugInv (st : BuildState) (node : MdBlock) (h : slugInv st) :
    slugInv (buildStep st node) := by
  obtain ⟨h1, h2⟩ := h
  cases node with
  | other => exact ⟨h1, h2⟩
  | heading depth children =>
    by_cases hd2 : depth = 2
    · subst hd2
      by_cases ht : jsTrim (extractTextList children) = ""
      · rw [buildStep_h2_empty st children ht]; exact ⟨h1, h2⟩
      · rw [buildStep_h2 st children ht]
        constructor
        · intro x hx
          simp at hx
          rcases hx with hx | hx
          · exact h1 x hx
          · exact closeCur_slugSpec st.cur h2 x hx
        · refine ⟨rfl, ?_, ?_⟩
          · intro d hd
            simp at hd
          · intro s hs
            simp at hs
    · by_cases hd3 : depth = 3
      · subst hd3
        cases hc : st.cur with
        | none => rw [buildStep_h3_noCur st children hc]; exact ⟨h1, h2⟩
        | some c =>
          by_cases ht : jsTrim (extractTextList children) = ""
          · rw [buildStep_h3_empty st children c hc ht]; exact ⟨h1, h2⟩
          · rw [buildStep_h3 st children c hc ht]
            rw [hc] at h2
            simp only [curSlugSpec] at h2
            obtain ⟨hslug, hch, hsub⟩ := h2
            refine ⟨h1, ?_⟩
            simp only [slugInv, curSlugSpec]
            refine ⟨hslug, ?_, ?_⟩
            · intro d hd
              cases hs : c.sub with
              | none =>
                simp only [closeSub, hs] at hd
                exact hch d hd
              | some s =>
                simp only [closeSub, hs] at hd
                simp at hd
                rcases hd with hd | hd
                · exact hch d hd
                · subst hd
                  exact hsub s hs
            · intro s hs
              simp at hs
              rw [← hs]
      · rw [buildStep_heading_deep st depth children hd2 hd3]; exact ⟨h1, h2⟩
  | list items =>
    cases hc : st.cur with
    | none => rw [buildStep_list_noCur st items hc]; exact ⟨h1, h2⟩
    | some c =>
      rw [hc] at h2
      obtain ⟨hslug, hch, hsub⟩ := h2
      cases hs : c.sub with
      | none =>
        rw [buildStep_list_direct st items c hc hs]
        exact ⟨h1, hslug, hch, fun s hcontr => by rw [hs] at hcontr; cases hcontr⟩
      | some s =>
        rw [buildStep_list_sub st items c s hc hs]
        refine ⟨h1, hslug, hch, ?_⟩
        intro s' hs'
        simp at hs'
        rw [← hs']
        exact hsub s hs

theorem foldl_buildStep_slugInv (l : List MdBlock) (st : BuildState) (h : slugInv st) :
    slugInv (l.foldl buildStep st) := by
  induction l generalizing st with
  | nil => exact h
  | cons n rest ih => exact ih _ (buildStep_slugInv _ _ h)

theorem parse_catSlugSpec (content now : String) :
    ∀ c ∈ (parseAwesomeList now content).tree, catSlugSpec c := by
  have h : slugInv ((simpleParseMarkdown content).children.foldl buildStep ⟨[], none, []⟩) := by
    apply foldl_buildStep_slugInv
    exact ⟨by intro c hc; simp at hc, trivial⟩
  obtain ⟨h1, h2⟩ := h
  intro c hc
  have hc' : c ∈ (parseAwesomeListAst now (simpleParseMarkdown content)).tree := hc
  simp only [parseAwesomeListAst] at hc'
  rw [List.mem_append] at hc'
  rcases hc' with hc' | hc'
  · exact h1 c hc'
  · exact closeCur_slugSpec _ h2 c hc'

/-- C4 (amended): every category's slug is determined by its title —
each top-level slug is `slugify title`, each child slug is
`slugify (parentTitle ++ "-" ++ childTitle)` — so sibling categories
share a slug exactly when their (namespaced) titles slugify equally:
whenever the slugified titles of the top-level categories are pairwise
distinct, so are their slugs, and likewise for each category's
children.  The unamended unconditional claim fails when two sibling
headings carry the same title (see the counterexample theorem). -/
theorem parse_sibling_slugs (content now : String) :
    (∀ c ∈ (parseAwesomeList now content).tree,
        c.slug = slugify c.title ∧
        ∀ d ∈ c.children, d.slug = slugify (c.title ++ "-" ++ d.title)) ∧
    (List.Pairwise (fun a b => slugify a.title ≠ slugify b.title)
        (parseAwesomeList now content).tree →
      List.Pairwise (fun a b => a.slug ≠ b.slug)
        (parseAwesomeList now content).tree) ∧
    (∀ c ∈ (parseAwesomeList now content).tree,
      List.Pairwise (fun a b =>
          slugify (c.title ++ "-" ++ a.title) ≠ slugify (c.title ++ "-" ++ b.title))
        c.children →
      List.Pairwise (fun a b => a.slug ≠ b.slug) c.children) := by
  have hspec := parse_catSlugSpec content now
  refine ⟨fun c hc => hspec c hc, ?_, ?_⟩
  · intro hp
    refine List.Pairwise.imp_of_mem ?_ hp
    intro a b ha hb hr
    rw [(hspec a ha).1, (hspec b hb).1]
    exact hr
  · intro c hc hp
    refine List.Pairwise.imp_of_mem ?_ hp
    intro a b ha hb hr
    rw [(hspec c hc).2 a ha, (hspec c hc).2 b hb]
    exact hr

/-- C4 witness: applying the amended theorem at a concrete document
with two distinct heading titles yields pairwise distinct top-level
slugs. -/
theorem parse_sibling_slugs_witness :
    List.Pairwise (fun a b => a.slug ≠ b.slug)
      (parseAwesomeList "T" "## Alpha\n## Beta").tree :=
  (parse_sibling_slugs "## Alpha\n## Beta" "T").2.1 (by decide)

/-- C4 counterexample: the document `"## A\n## A"` (the same heading
title twice) produces two sibling top-level categories with the same
slug `"a"`, so the unamended claim — pairwise distinct sibling slugs
for every input document — is false. -/
theorem parse_sibling_slugs_counterexample :
    ¬ List.Pairwise (fun a b => a.slug ≠ b.slug)
        (parseAwesomeList "T" "## A\n## A").tree := by
  intro hp
  have hmap : (parseAwesomeList "T" "## A\n## A").tree.map AwesomeCategory.slug
      = ["a", "a"] := rfl
  have hp' : List.Pairwise (fun a b : String => a ≠ b)
      ((parseAwesomeList "T" "## A\n## A").tree.map AwesomeCategory.slug) :=
    List.Pairwise.map _ (fun _ _ h => h) hp
  rw [hmap] at hp'
  exact (List.pairwise_cons.mp hp').1 "a" (by simp) rfl

/-! ## C6: the empty query -/

/-- C6: for every catalog and every limit, searching with the empty
query returns the empty sequence. -/
theorem searchItems_empty_query (catalog : AwesomeCatalog) (n : Nat) :
    searchItems catalog "" n = [] := rfl

/-! ## Character and split lemmas for the search theorems -/

theorem string_mk_data (s : String) : String.mk s.data = s := by
  cases s
  rfl

theorem toLower_isWhitespace_false (c : Char) (h : c.isWhitespace = false) :
    c.toLower.isWhitespace = false := by
  rw [Char.toLower]
  split
  · next hcond =>
    obtain ⟨hl, hu⟩ := hcond
    generalize c.toNat = n at hl hu
    interval_cases n <;> decide
  · exact h

theorem toLower_of_isWhitespace (c : Char) (h : c.isWhitespace = true) :
    c.toLower = c := by
  simp only [Char.isWhitespace, Bool.or_eq_true, decide_eq_true_eq] at h
  rcases h with ((h | h) | h) | h <;> subst h <;> decide

theorem jsIncludes_empty (s : String) : jsIncludes s "" = true := by
  show listContains [] s.data = true
  cases s.data <;> simp [listContains, listStartsWith]

theorem jsSplitWsAux_noWs_head (b : Bool) (c : Char) (rest acc : List Char)
    (hc : c.isWhitespace = false) :
    jsSplitWsAux b (c :: rest) acc = jsSplitWsAux false rest (c :: acc) := by
  cases b <;> simp [jsSplitWsAux, hc]

theorem jsSplitWsAux_append_noWs (la : List Char) (tail acc : List Char)
    (h : ∀ c ∈ la, c.isWhitespace = false) :
    jsSplitWsAux false (la ++ tail) acc = jsSplitWsAux false tail (la.reverse ++ acc) := by
  induction la generalizing acc with
  | nil => simp
  | cons c la' ih =>
    have hc : c.isWhitespace = false := h c (by simp)
    rw [List.cons_append, jsSplitWsAux_noWs_head false c _ acc hc,
        ih _ (fun x hx => h x (by simp [hx]))]
    simp

theorem jsSplitWsAux_noWs_all (l acc : List Char)
    (h : ∀ c ∈ l, c.isWhitespace = false) :
    jsSplitWsAux false l acc = [String.mk (acc.reverse ++ l)] := by
  have h0 := jsSplitWsAux_append_noWs l [] acc h
  simp only [List.append_nil] at h0
  rw [h0]
  simp [jsSplitWsAux]

theorem jsSplitWs_two_fields (a b : String)
    (hwa : ∀ c ∈ a.data, c.isWhitespace = false)
    (hwb : ∀ c ∈ b.data, c.isWhitespace = false) :
    jsSplitWs (a ++ " " ++ b) = [a, b] := by
  have hdata : (a ++ " " ++ b).data = a.data ++ (' ' :: b.data) := by
    simp [String.data_append]
  rw [jsSplitWs, hdata, jsSplitWsAux_append_noWs a.data _ [] hwa]
  have hsp : (' ' : Char).isWhitespace = true := by decide
  rw [show jsSplitWsAux false (' ' :: b.data) (a.data.reverse ++ []) =
      String.mk (a.data.reverse ++ []).reverse :: jsSplitWsAux true b.data [] by
    simp [jsSplitWsAux, hsp]]
  have h1 : String.mk (a.data.reverse ++ []).reverse = a := by
    simp [string_mk_data]
  have h2 : jsSplitWsAux true b.data [] = [b] := by
    cases hb : b.data with
    | nil =>
      rw [← string_mk_data b, hb]
      rfl
    | cons c rest =>
      have hc : c.isWhitespace = false := hwb c (by simp [hb])
      rw [jsSplitWsAux_noWs_head true c rest [] hc,
          jsSplitWsAux_noWs_all rest [c] (fun x hx => hwb x (by simp [hb, hx]))]
      rw [← string_mk_data b, hb]
      rfl
  rw [h1, h2]

theorem jsSplitWs_single_field (a : String)
    (hwa : ∀ c ∈ a.data, c.isWhitespace = false) :
    jsSplitWs a = [a] := by
  rw [jsSplitWs, jsSplitWsAux_noWs_all a.data [] hwa]
  simp [string_mk_data]

theorem jsToLower_data (s : String) :
    (jsToLower s).data = s.data.map Char.toLower := rfl

theorem jsToLower_append_space (a b : String) :
    jsToLower (a ++ " " ++ b) = jsToLower a ++ " " ++ jsToLower b := by
  have hdata : (jsToLower (a ++ " " ++ b)).data = (jsToLower a ++ " " ++ jsToLower b).data := by
    simp only [jsToLower_data, String.data_append, List.map_append]
    simp [show (" " : String).data = [' '] from rfl,
          show Char.toLower ' ' = ' ' from by decide]
  have h := congrArg String.mk hdata
  rwa [string_mk_data, string_mk_data] at h

theorem jsToLower_ne_empty (a : String) (ha : a ≠ "") : jsToLower a ≠ "" := by
  intro h0
  have : (jsToLower a).data = [] := by rw [h0]
  rw [jsToLower_data] at this
  simp at this
  exact ha (by rw [← string_mk_data a, this])

theorem jsToLower_noWs (a : String) (hwa : ∀ c ∈ a.data, c.isWhitespace = false) :
    ∀ c ∈ (jsToLower a).data, c.isWhitespace = false := by
  intro c hc
  rw [jsToLower_data] at hc
  obtain ⟨d, hd, rfl⟩ := List.mem_map.mp hc
  exact toLower_isWhitespace_false d (hwa d hd)

/-! ## The search loop without truncation is a filter -/

theorem searchLoop_eq_filter (terms : List String) (limit : Nat)
    (l acc : List AwesomeItem) (h : acc.length + l.length ≤ limit) :
    searchLoop terms limit l acc =
      acc ++ l.filter (fun i => matchesSearch i terms) := by
  induction l generalizing acc with
  | nil => simp [searchLoop]
  | cons item rest ih =>
    simp only [searchLoop]
    by_cases hm : matchesSearch item terms
    · simp only [hm, if_true]
      by_cases hb : limit ≤ (acc ++ [item]).length
      · simp only [if_pos hb]
        have hrest : rest = [] := by
          simp only [List.length_append, List.length_cons, List.length_nil] at hb
          simp only [List.length_cons] at h
          have : rest.length = 0 := by omega
          exact List.eq_nil_of_length_eq_zero this
        subst hrest
        simp [List.filter, hm]
      · simp only [if_neg hb]
        have hlen : (acc ++ [item]).length + rest.length ≤ limit := by
          have h' : acc.length + (rest.length + 1) ≤ limit := by
            simpa using h
          simp only [List.length_append, List.length_cons, List.length_nil]
          omega
        rw [ih (acc ++ [item]) hlen]
        simp [List.filter_cons, hm]
    · simp only [Bool.not_eq_true] at hm
      simp only [hm, Bool.false_eq_true, if_false]
      by_cases hb : limit ≤ acc.length
      · exact absurd h (by simp only [List.length_cons]; omega)
      · simp only [if_neg hb]
        have hlen : acc.length + rest.length ≤ limit := by
          have h' : acc.length + (rest.length + 1) ≤ limit := by
            simpa using h
          omega
        rw [ih acc hlen]
        simp [List.filter_cons, hm]

theorem searchItems_eq_filter (c : AwesomeCatalog) (q : String) (n : Nat)
    (hq : q ≠ "") (hn : c.list.length ≤ n) :
    searchItems c q n =
      c.list.filter (fun i => matchesSearch i (jsSplitWs (jsToLower q))) := by
  simp only [searchItems, if_neg hq]
  exact searchLoop_eq_filter _ n c.list [] (by simpa using hn)

theorem matchesSearch_pair (item : AwesomeItem) (t1 t2 : String)
    (h : matchesSearch item [t1, t2] = true) :
    matchesSearch item [t1] = true ∧ matchesSearch item [t2] = true := by
  simp only [matchesSearch, List.all_cons, List.all_nil, Bool.and_eq_true,
             Bool.and_true] at h ⊢
  exact ⟨h.1, h.2⟩

/-! ## C5: term-conjunctive search -/

/-- C5 (amended): search is term-conjunctive as long as the shared
limit does not truncate — for every catalog `c`, non-empty
whitespace-free terms `a` and `b`, and limit `n` at least
`c.list.length`, every item returned by `searchItems c (a ++ " " ++ b) n`
is also returned by `searchItems c a n` and by `searchItems c b n`.
(With a truncating limit — e.g. the default 20 — the subset relation
can fail, see the counterexample theorem.) -/
theorem searchItems_conjunctive (c : AwesomeCatalog) (a b : String) (n : Nat)
    (ha : a ≠ "") (hb : b ≠ "")
    (hwa : ∀ ch ∈ a.data, ch.isWhitespace = false)
    (hwb : ∀ ch ∈ b.data, ch.isWhitespace = false)
    (hn : c.list.length ≤ n)
    (x : AwesomeItem) (hx : x ∈ searchItems c (a ++ " " ++ b) n) :
    x ∈ searchItems c a n ∧ x ∈ searchItems c b n := by
  have hqa : (a ++ " " ++ b) ≠ "" := by
    intro h0
    have : (a ++ " " ++ b).data = [] := by rw [h0]
    simp [String.data_append] at this
  have hterms : jsSplitWs (jsToLower (a ++ " " ++ b)) = [jsToLower a, jsToLower b] := by
    rw [jsToLower_append_space]
    exact jsSplitWs_two_fields _ _ (jsToLower_noWs a hwa) (jsToLower_noWs b hwb)
  rw [searchItems_eq_filter c _ n hqa hn, hterms] at hx
  rw [List.mem_filter] at hx
  obtain ⟨hmem, hmatch⟩ := hx
  obtain ⟨m1, m2⟩ := matchesSearch_pair x _ _ hmatch
  constructor
  · rw [searchItems_eq_filter c a n ha hn,
        jsSplitWs_single_field _ (jsToLower_noWs a hwa)]
    exact List.mem_filter.mpr ⟨hmem, m1⟩
  · rw [searchItems_eq_filter c b n hb hn,
        jsSplitWs_single_field _ (jsToLower_noWs b hwb)]
    exact List.mem_filter.mpr ⟨hmem, m2⟩

/-- C5 witness: the amended theorem applied to a one-item catalog. -/
theorem searchItems_conjunctive_witness :
    (⟨"a b", "u", none, "c", none⟩ : AwesomeItem) ∈
      searchItems ⟨[], [⟨"a b", "u", none, "c", none⟩], ⟨"t", 1, 2⟩⟩ "a" 1 ∧
    (⟨"a b", "u", none, "c", none⟩ : AwesomeItem) ∈
      searchItems ⟨[], [⟨"a b", "u", none, "c", none⟩], ⟨"t", 1, 2⟩⟩ "b" 1 :=
  searchItems_conjunctive ⟨[], [⟨"a b", "u", none, "c", none⟩], ⟨"t", 1, 2⟩⟩
    "a" "b" 1 (by decide) (by decide) (by decide) (by decide) (by decide)
    ⟨"a b", "u", none, "c", none⟩ (by decide)

/-- C5 counterexample: with the same default limit (20) in all calls,
the claimed subset relation fails.  In a catalog whose list is twenty
items titled `"a"` followed by one item titled `"a b"`, the query
`"a b"` returns exactly the last item, but the query `"a"` already hits
the limit on the first twenty items, so the last item is not among its
results. -/
theorem searchItems_conjunctive_counterexample :
    (⟨"a b", "u", none, "c", none⟩ : AwesomeItem) ∈
      searchItems ⟨[], List.replicate 20 ⟨"a", "u", none, "c", none⟩
        ++ [⟨"a b", "u", none, "c", none⟩], ⟨"t", 21, 2⟩⟩ "a b" ∧
    (⟨"a b", "u", none, "c", none⟩ : AwesomeItem) ∉
      searchItems ⟨[], List.replicate 20 ⟨"a", "u", none, "c", none⟩
        ++ [⟨"a b", "u", none, "c", none⟩], ⟨"t", 21, 2⟩⟩ "a" := by
  decide

/-! ## C10: whitespace-only queries match everything -/

theorem splitWs_all_blank (cs : List Char) (h : ∀ c ∈ cs, c.isWhitespace = true) :
    ∀ (b : Bool), ∀ t ∈ jsSplitWsAux b cs [], t = "" := by
  induction cs with
  | nil =>
    intro b t ht
    simp [jsSplitWsAux] at ht
    simp [ht]
  | cons c rest ih =>
    intro b t ht
    have hc : c.isWhitespace = true := h c (by simp)
    cases b with
    | true =>
      simp only [jsSplitWsAux, hc, if_true] at ht
      exact ih (fun x hx => h x (by simp [hx])) true t ht
    | false =>
      simp only [jsSplitWsAux, hc, if_true] at ht
      rcases List.mem_cons.mp ht with ht | ht
      · simp [ht]
      · exact ih (fun x hx => h x (by simp [hx])) true t ht

theorem jsToLower_of_all_ws (q : String) (h : ∀ c ∈ q.data, c.isWhitespace = true) :
    jsToLower q = q := by
  have hgen : ∀ (l : List Char), (∀ c ∈ l, c.isWhitespace = true) →
      l.map Char.toLower = l := by
    intro l
    induction l with
    | nil => intro _; rfl
    | cons c rest ih =>
      intro hl
      rw [List.map_cons, toLower_of_isWhitespace c (hl c (by simp)),
          ih (fun x hx => hl x (by simp [hx]))]
  have hmap : q.data.map Char.toLower = q.data := hgen q.data h
  rw [← string_mk_data q]
  show String.mk (q.data.map Char.toLower) = String.mk q.data
  rw [hmap]

theorem searchLoop_all_match (terms : List String) (limit : Nat)
    (l acc : List AwesomeItem)
    (hall : ∀ i ∈ l, matchesSearch i terms = true) (hacc : acc.length < limit) :
    searchLoop terms limit l acc = acc ++ l.take (limit - acc.length) := by
  induction l generalizing acc with
  | nil => simp [searchLoop]
  | cons item rest ih =>
    have hm := hall item (by simp)
    simp only [searchLoop, hm, if_true]
    by_cases hb : limit ≤ (acc ++ [item]).length
    · simp only [if_pos hb]
      have hlim : limit = acc.length + 1 := by
        simp only [List.length_append, List.length_cons, List.length_nil] at hb
        omega
      rw [hlim]
      have : acc.length + 1 - acc.length = 1 := by omega
      rw [this]
      simp [List.take_succ_cons]
    · simp only [if_neg hb]
      have hacc' : (acc ++ [item]).length < limit := by
        simp only [List.length_append, List.length_cons, List.length_nil] at hb ⊢
        omega
      rw [ih (acc ++ [item]) (fun i hi => hall i (by simp [hi])) hacc']
      obtain ⟨k, hk⟩ : ∃ k, limit - acc.length = k + 1 :=
        ⟨limit - acc.length - 1, by omega⟩
      have hk' : limit - (acc ++ [item]).length = k := by
        simp only [List.length_append, List.length_cons, List.length_nil]
        omega
      rw [hk, hk', List.take_succ_cons]
      simp

/-- C10: for every catalog with a non-empty list, every query that is
non-empty but consists only of whitespace, and every positive limit,
`searchItems` does not return the empty sequence: splitting such a
query yields empty-string terms, the empty string is a substring of
every haystack, so every item matches and the result is the first
`min(limit, list.length)` items of the flat list. -/
theorem searchItems_whitespace_query (c : AwesomeCatalog) (q : String) (limit : Nat)
    (hl : c.list ≠ []) (hq : q ≠ "")
    (hws : ∀ ch ∈ q.data, ch.isWhitespace = true) (hlim : 1 ≤ limit) :
    searchItems c q limit = c.list.take (min limit c.list.length) ∧
    searchItems c q limit ≠ [] := by
  have hterms : ∀ t ∈ jsSplitWs (jsToLower q), t = "" := by
    rw [jsToLower_of_all_ws q hws]
    exact fun t ht => splitWs_all_blank q.data hws false t ht
  have hmatch : ∀ i ∈ c.list, matchesSearch i (jsSplitWs (jsToLower q)) = true := by
    intro i _
    simp only [matchesSearch, List.all_eq_true]
    intro t ht
    rw [hterms t ht]
    exact jsIncludes_empty _
  have heq : searchItems c q limit = c.list.take limit := by
    simp only [searchItems, if_neg hq]
    rw [searchLoop_all_match _ limit c.list [] hmatch (by simpa using hlim)]
    simp
  have hmin : c.list.take limit = c.list.take (min limit c.list.length) := by
    by_cases hcase : limit ≤ c.list.length
    · rw [Nat.min_eq_left hcase]
    · rw [Nat.min_eq_right (by omega), List.take_of_length_le (by omega),
          List.take_length]
  refine ⟨by rw [heq, hmin], ?_⟩
  rw [heq]
  intro h0
  have hlen := congrArg List.length h0
  simp only [List.length_take, List.length_nil] at hlen
  have hpos : 0 < c.list.length := List.length_pos.mpr hl
  omega

/-- C10 witness: a one-item catalog searched with the single-space
query and the default limit returns that item. -/
theorem searchItems_whitespace_query_witness :
    searchItems ⟨[], [⟨"t", "u", none, "c", none⟩], ⟨"x", 1, 2⟩⟩ " " 20 =
      ([⟨"t", "u", none, "c", none⟩] : List AwesomeItem).take
        (min 20 ([⟨"t", "u", none, "c", none⟩] : List AwesomeItem).length) ∧
    searchItems ⟨[], [⟨"t", "u", none, "c", none⟩], ⟨"x", 1, 2⟩⟩ " " 20 ≠ [] :=
  searchItems_whitespace_query ⟨[], [⟨"t", "u", none, "c", none⟩], ⟨"x", 1, 2⟩⟩
    " " 20 (by decide) (by decide) (by decide) (by decide)

/-! ## C7: normalize after a JSON round trip of a parse result -/

theorem parse_meta (content now : String) :
    (parseAwesomeList now content).meta =
      ⟨now, ((parseAwesomeList now content).list.length : Int), 2⟩ := rfl

/-- C7 (amended): for every markdown document whose parse has at least
one category (a non-empty tree) — and with the genuinely non-empty ISO
timestamp `new Date().toISOString()` produces — normalizing the
JSON-round-tripped catalog returned by `parseAwesomeList` is a fixed
point: it returns exactly the original catalog.  (For a document with
no `##` headings the parse's tree is empty and `normalizeCatalog`
instead returns `none` — the unamended universal claim fails there, see
the counterexample theorem.) -/
theorem normalize_roundtrip_fixed_point (content now now2 : String)
    (hnow : now ≠ "") (htree : (parseAwesomeList now content).tree ≠ []) :
    normalizeCatalog now2 (catalogAsRaw (parseAwesomeList now content)) =
      some (parseAwesomeList now content) := by
  have hne : (parseAwesomeList now content).tree.isEmpty = false := by
    cases ht : (parseAwesomeList now content).tree with
    | nil => exact absurd ht htree
    | cons _ _ => rfl
  have hlist : (if (parseAwesomeList now content).list.isEmpty then
      flattenItemsFromTree (parseAwesomeList now content).tree
      else (parseAwesomeList now content).list) = (parseAwesomeList now content).list := by
    by_cases he : (parseAwesomeList now content).list.isEmpty
    · rw [if_pos he, parse_flatten_helper]
    · rw [if_neg he]
  have hm := parse_meta content now
  simp only [normalizeCatalog, catalogAsRaw, hm, hne, Bool.false_eq_true, if_false,
             hlist, Option.getD_some]
  rw [if_neg hnow]
  simp only [Nat.cast_nonneg, if_pos (Int.ofNat_nonneg _)]
  rw [show (parseAwesomeList now content) =
      ⟨(parseAwesomeList now content).tree, (parseAwesomeList now content).list,
       (parseAwesomeList now content).meta⟩ from rfl, hm]
  simp [hnow]

/-- C7 witness: the amended fixed-point theorem applied to a concrete
document with one category and one item. -/
theorem normalize_roundtrip_witness :
    normalizeCatalog "Y" (catalogAsRaw (parseAwesomeList "X" "## A\n- [T](u)")) =
      some (parseAwesomeList "X" "## A\n- [T](u)") :=
  normalize_roundtrip_fixed_point "## A\n- [T](u)" "X" "Y" (by decide)
    (by
      intro h
      have h1 : (parseAwesomeList "X" "## A\n- [T](u)").tree.length = 0 := by
        rw [h]; rfl
      have h2 : (parseAwesomeList "X" "## A\n- [T](u)").tree.length = 1 := rfl
      omega)

/-- C7 counterexample: for the empty document the parse yields an empty
tree, and `normalizeCatalog` rejects the round-tripped catalog as
unrecognizable (`none`) instead of returning it — so the claim is false
for the input `doc = ""`. -/
theorem normalize_roundtrip_counterexample :
    normalizeCatalog "A" (catalogAsRaw (parseAwesomeList "A" "")) ≠
      some (parseAwesomeList "A" "") := by
  have h : normalizeCatalog "A" (catalogAsRaw (parseAwesomeList "A" "")) = none := rfl
  rw [h]
  simp

/-! ## C8: normalizing the legacy shape -/

/-- C8: for every non-empty array of category nodes `cs`, normalizing
the legacy shape `{ categories: cs, updatedAt: "2023-01-01T00:00:00Z" }`
(no tree, no list, no meta) yields a catalog that keeps the legacy
timestamp, rebuilds `list` as the pre-order flatten of `cs`, and sets
`meta.totalItems` to that list's length. -/
theorem normalize_legacy_shape (now : String) (cs : List AwesomeCategory)
    (h : cs ≠ []) :
    normalizeCatalog now ⟨none, some cs, none, none, some "2023-01-01T00:00:00Z"⟩ =
      some ⟨cs, flattenItemsFromTree cs,
            ⟨"2023-01-01T00:00:00Z", ((flattenItemsFromTree cs).length : Int), 2⟩⟩ := by
  have hne : cs.isEmpty = false := by
    cases cs with
    | nil => exact absurd rfl h
    | cons _ _ => rfl
  simp only [normalizeCatalog, hne, Bool.false_eq_true, if_false]
  rw [if_neg (by decide : ¬("2023-01-01T00:00:00Z" : String) = "")]

/-- C8 witness: the legacy-shape theorem applied to one concrete
category. -/
theorem normalize_legacy_shape_witness :
    normalizeCatalog "N" ⟨none, some [⟨"A", "a", [], []⟩], none, none,
        some "2023-01-01T00:00:00Z"⟩ =
      some ⟨[⟨"A", "a", [], []⟩], flattenItemsFromTree [⟨"A", "a", [], []⟩],
            ⟨"2023-01-01T00:00:00Z",
             ((flattenItemsFromTree [⟨"A", "a", [], []⟩]).length : Int), 2⟩⟩ :=
  normalize_legacy_shape "N" [⟨"A", "a", [], []⟩] (by simp)

/-! ## C9: the fingerprint is stored only after a successful persist -/

theorem afterFetch_mem_storeEtag (tr : List SyncEvent) (f : FetchResult)
    (w : SyncWorld) (e : String)
    (h : SyncEvent.storeEtagEv e ∈ (afterFetch tr f w).1) :
    SyncEvent.storeEtagEv e ∈ tr ∨
      (w.persistResult = Except.ok () ∧ f.etag = some e ∧
       (afterFetch tr f w).1 =
         tr ++ [SyncEvent.persistEv (parseAwesomeList w.now f.content),
                SyncEvent.storeEtagEv e]) := by
  cases hp : w.parseResult with
  | error msg =>
    left
    simpa [afterFetch, hp] using h
  | ok u =>
    cases hpr : w.persistResult with
    | error msg =>
      left
      simpa [afterFetch, hp, hpr] using h
    | ok u2 =>
      cases he : f.etag with
      | none =>
        left
        simpa [afterFetch, hp, hpr, he] using h
      | some e' =>
        cases hse : w.storeEtagResult with
        | error msg2 =>
          simp only [afterFetch, hp, hpr, he, hse, List.mem_append, List.mem_cons,
                     List.not_mem_nil, or_false] at h
          rcases h with (h | h) | h
          · exact Or.inl h
          · exact absurd h (by simp)
          · right
            injection h with hee
            subst hee
            refine ⟨by cases u2; rfl, rfl, ?_⟩
            simp [afterFetch, hp, hpr, he, hse]
        | ok uthree =>
          simp only [afterFetch, hp, hpr, he, hse, List.mem_append, List.mem_cons,
                     List.not_mem_nil, or_false] at h
          rcases h with (h | h) | h
          · exact Or.inl h
          · exact absurd h (by simp)
          · right
            injection h with hee
            subst hee
            refine ⟨by cases u2; rfl, rfl, ?_⟩
            simp [afterFetch, hp, hpr, he, hse]

/-- C9: in every execution of the sync handler, the new fingerprint is
stored only after the new catalog has been successfully persisted — an
ETag-store event occurs in the trace only when the persist call
succeeded, and a persist event for that cycle's catalog strictly
precedes it. -/
theorem sync_fingerprint_after_persist (authOk force : Bool) (w : SyncWorld)
    (e : String)
    (h : SyncEvent.storeEtagEv e ∈ (syncHandler authOk force w).1) :
    w.persistResult = Except.ok () ∧
    ∃ (cat : AwesomeCatalog) (i j : Nat), i < j ∧
      (syncHandler authOk force w).1.get? i = some (SyncEvent.persistEv cat) ∧
      (syncHandler authOk force w).1.get? j = some (SyncEvent.storeEtagEv e) := by
  cases authOk with
  | false => simp [syncHandler] at h
  | true =>
    cases hw1 : w.fetch1 with
    | error msg =>
      rw [show (syncHandler true force w).1 = [.fetchReadme force] by
        simp [syncHandler, hw1]] at h
      simp at h
    | ok f1 =>
      cases hm1 : f1.isModified with
      | true =>
        have hred : syncHandler true force w = afterFetch [.fetchReadme force] f1 w := by
          simp [syncHandler, hw1, hm1]
        rw [hred] at h ⊢
        rcases afterFetch_mem_storeEtag _ f1 w e h with hmem | ⟨hpr, _, htr⟩
        · simp at hmem
        · refine ⟨hpr, parseAwesomeList w.now f1.content, 0 + 1, 2, by omega, ?_, ?_⟩ <;>
            rw [htr] <;> rfl
      | false =>
        cases hgc : w.getCat with
        | error msg =>
          rw [show (syncHandler true force w).1 = [.fetchReadme force, .getCatalogEv] by
            simp [syncHandler, hw1, hm1, hgc]] at h
          simp at h
        | ok existing =>
          cases existing with
          | some cat0 =>
            rw [show (syncHandler true force w).1 = [.fetchReadme force, .getCatalogEv] by
              simp [syncHandler, hw1, hm1, hgc]] at h
            simp at h
          | none =>
            cases hw2 : w.fetch2 with
            | error msg =>
              rw [show (syncHandler true force w).1 =
                  [.fetchReadme force, .getCatalogEv, .fetchReadme true] by
                simp [syncHandler, hw1, hm1, hgc, hw2]] at h
              simp at h
            | ok f2 =>
              cases hm2 : f2.isModified with
              | true =>
                have hred : syncHandler true force w =
                    afterFetch [.fetchReadme force, .getCatalogEv, .fetchReadme true] f2 w := by
                  simp [syncHandler, hw1, hm1, hgc, hw2, hm2]
                rw [hred] at h ⊢
                rcases afterFetch_mem_storeEtag _ f2 w e h with hmem | ⟨hpr, _, htr⟩
                · simp at hmem
                · refine ⟨hpr, parseAwesomeList w.now f2.content, 3, 4, by omega, ?_, ?_⟩ <;>
                    rw [htr] <;> rfl
              | false =>
                rw [show (syncHandler true force w).1 =
                    [.fetchReadme force, .getCatalogEv, .fetchReadme true] by
                  simp [syncHandler, hw1, hm1, hgc, hw2, hm2]] at h
                simp at h

/-- C9 witness: a concrete all-successful cycle with modified content
and an ETag; the fingerprint-store event occurs and the theorem places
a successful persist before it. -/
theorem sync_fingerprint_after_persist_witness :
    (⟨Except.ok ⟨"## A", "raw", some "W/1", true⟩, Except.ok ⟨"", "", none, false⟩,
      Except.ok none, Except.ok (), Except.ok (), Except.ok (), "T"⟩ : SyncWorld).persistResult
        = Except.ok () ∧
    ∃ (cat : AwesomeCatalog) (i j : Nat), i < j ∧
      (syncHandler true false ⟨Except.ok ⟨"## A", "raw", some "W/1", true⟩,
        Except.ok ⟨"", "", none, false⟩, Except.ok none, Except.ok (), Except.ok (),
        Except.ok (), "T"⟩).1.get? i = some (SyncEvent.persistEv cat) ∧
      (syncHandler true false ⟨Except.ok ⟨"## A", "raw", some "W/1", true⟩,
        Except.ok ⟨"", "", none, false⟩, Except.ok none, Except.ok (), Except.ok (),
        Except.ok (), "T"⟩).1.get? j = some (SyncEvent.storeEtagEv "W/1") :=
  sync_fingerprint_after_persist true false
    ⟨Except.ok ⟨"## A", "raw", some "W/1", true⟩, Except.ok ⟨"", "", none, false⟩,
     Except.ok none, Except.ok (), Except.ok (), Except.ok (), "T"⟩ "W/1"
    (by
      rw [show (syncHandler true false ⟨Except.ok ⟨"## A", "raw", some "W/1", true⟩,
          Except.ok ⟨"", "", none, false⟩, Except.ok none, Except.ok (), Except.ok (),
          Except.ok (), "T"⟩).1 =
        [SyncEvent.fetchReadme false,
         SyncEvent.persistEv (parseAwesomeList "T" "## A"),
         SyncEvent.storeEtagEv "W/1"] from rfl]
      simp)
